import Mathlib

/-
Verification of the file-backed directory data store (src/lib/dataStore.js).

The development shallow-embeds the source module: the asynchronous,
callback-based Node.js code is modelled as pure Lean functions.  A directory
load either delivers an outcome to its (once-only) callback, or it never
invokes the callback at all; we model the delivered outcome as
`Option (Except String A)` where `none` means "the callback is never invoked"
(the completion counter never reaches zero) and `some` is the single value
delivered to the `cb`-wrapped callback.  Races between concurrently settling
callbacks are resolved deterministically in directory-listing order, which is
also the order in which the source issues the operations.

YAML deserialization (js-yaml safeLoad) is out of scope for the module and is
modelled as an opaque parameter
  parse : String -> Except String (Option RawRecord)
where `Except.error` models the parser throwing (malformed content),
`Except.ok none` models a null/undefined document (empty input), and
`Except.ok (some r)` models a parsed key/value mapping restricted to the
fields the module reads.  JavaScript passes `yaml.safeLoad(undefined)` for
directory/symlink entries; js-yaml coerces the input with String(), so the
parser then receives the literal text "undefined" (`jsStringCoerce`).

Object identity of resolved references is modelled positionally: a resolved
reference is the index of the referenced object inside the same store
generation, mirroring the fact that the source index maps (groups[cn],
users[uid]) hold the very objects stored in the generation being built.
-/

deriving instance DecidableEq for Except

namespace Teleport

/-! ## Filesystem model -/

/-- Kind and readable content of one directory entry, as observed through
`fs.lstat` / `fs.readFile`.  `other` is an entry whose `stats` match none of
`isFile` / `isDirectory` / `isSymbolicLink` (the source has no branch for it);
`statErr` is an `fs.lstat` failure; `readErr` is an `fs.readFile` failure on a
regular file. -/
inductive FsEntry
  | file (contents : String)
  | dir
  | symlink
  | other
  | statErr (msg : String)
  | readErr (msg : String)
  deriving DecidableEq

/-- The directory tree the loader reads: the listings of `<dir>/users`,
`<dir>/groups`, `<dir>/layers`, and of each `<dir>/layers/<id>`.  A listing is
`Except.error` when `fs.readdir` itself fails. -/
structure Tree where
  dir : String
  usersListing : Except String (List (String × FsEntry))
  groupsListing : Except String (List (String × FsEntry))
  layersListing : Except String (List (String × FsEntry))
  layerListing : String → Except String (List (String × FsEntry))

/-! ## Raw records -/

/-- The fields of a parsed YAML mapping that the module reads.  `none` models
a JavaScript absent (or null) field. -/
structure RawRecord where
  publicKeys : Option (List String) := none
  primaryGroup : Option String := none
  groups : Option (List String) := none
  gidNumber : Option Nat := none
  deriving DecidableEq

/-- A user record as produced by the users/ transform. -/
structure RawUser where
  uid : String
  cn : String
  publicKeys : List String
  primaryGroup : Option String
  groups : Option (List String)
  deriving DecidableEq

/-- A group record as produced by the groups/ transform (gidNumber already
checked truthy). -/
structure RawGroup where
  cn : String
  gidNumber : Nat
  deriving DecidableEq

/-- A layer stub with its member uid list, as produced by loadLayers. -/
structure RawLayer where
  id : String
  users : List String
  deriving DecidableEq

/-! ## Record Loader (loadDir) -/

/-- Sequential model of the fan-out in `loadDir` (dataStore.js lines
118-153).  `acc` is the `result` array, `hang` records that some entry of a
kind with no handling branch was seen, so the countdown `c` can never reach
zero.  An entry that fails (lstat error, read error, or the transform
throwing inside `accumulate`) settles the callback with that error;
otherwise the transform result is pushed.  If all entries are processed and
`hang` is set, the callback is never invoked (`none`). -/
def loadDirGo (fn : String → Option String → Except String β) :
    List (String × FsEntry) → List β → Bool → Option (Except String (List β))
  | [], acc, hang => if hang then none else some (.ok acc)
  | (name, ent) :: rest, acc, hang =>
    match ent with
    | .statErr m => some (.error m)
    | .readErr m => some (.error m)
    | .file c =>
      match fn name (some c) with
      | .error e => some (.error e)
      | .ok v => loadDirGo fn rest (acc ++ [v]) hang
    | .dir =>
      match fn name none with
      | .error e => some (.error e)
      | .ok v => loadDirGo fn rest (acc ++ [v]) hang
    | .symlink =>
      match fn name none with
      | .error e => some (.error e)
      | .ok v => loadDirGo fn rest (acc ++ [v]) hang
    | .other => loadDirGo fn rest acc true

/-- `loadDir` (dataStore.js lines 113-155): `fs.readdir` failure settles the
callback with that error; an empty listing leaves the counter `c` at zero
with no entry ever calling `accumulate`, so the callback is never invoked. -/
def loadDir (listing : Except String (List (String × FsEntry)))
    (fn : String → Option String → Except String β) :
    Option (Except String (List β)) :=
  match listing with
  | .error e => some (.error e)
  | .ok [] => none
  | .ok files => loadDirGo fn files [] false

/-- Whether an entry settles the loadDir callback with an error: lstat
failure, read failure, or the transform throwing on the arguments this entry
kind supplies.  Entries of unhandled kind never fail (they are silently
ignored). -/
def entryFails (fn : String → Option String → Except String β) :
    String × FsEntry → Bool
  | (_, .statErr _) => true
  | (_, .readErr _) => true
  | (n, .file c) =>
    match fn n (some c) with
    | .error _ => true
    | .ok _ => false
  | (n, .dir) =>
    match fn n none with
    | .error _ => true
    | .ok _ => false
  | (n, .symlink) =>
    match fn n none with
    | .error _ => true
    | .ok _ => false
  | (_, .other) => false

/-- The value an entry contributes to the result collection when its
transform succeeds. -/
def entryVal (fn : String → Option String → Except String β) :
    String × FsEntry → Option β
  | (n, .file c) => (fn n (some c)).toOption
  | (n, .dir) => (fn n none).toOption
  | (n, .symlink) => (fn n none).toOption
  | (_, .other) => none
  | (_, .statErr _) => none
  | (_, .readErr _) => none

/-! ## Filename to id -/

/-- JavaScript `filename.split(".")` for the one-character separator,
modelled directly on the character sequence: every occurrence of the dot is a
separator, and splitting never yields an empty token list (the empty string
splits to [""], exactly as in JS). -/
def splitDotChars : List Char → List (List Char)
  | [] => [[]]
  | c :: cs =>
    let r := splitDotChars cs
    if c = '.' then [] :: r
    else
      match r with
      | [] => [[c]]
      | t :: ts => (c :: t) :: ts

/-- String-level wrapper of `splitDotChars`. -/
def jsSplitDot (s : String) : List String :=
  (splitDotChars s.data).map (fun cs => String.mk cs)

/-- `fileUid` (dataStore.js lines 160-165): split the filename on the literal
dot and join back every token but the last.  In JavaScript `split` never
returns an empty array, so the `tokens.length === 0` branch is dead; it is
kept for faithfulness. -/
def fileUid (filename : String) : String :=
  let tokens := jsSplitDot filename
  if tokens.length = 0 then ""
  else String.intercalate "." (tokens.take (tokens.length - 1))

/-- JavaScript String() coercion applied by js-yaml to its input: a missing
(undefined) contents argument becomes the text "undefined". -/
def jsStringCoerce (contents : Option String) : String :=
  contents.getD "undefined"

/-! ## Tree Loader transforms -/

/-- The users/ transform (dataStore.js lines 172-177): a parse exception
propagates (the transform throws); a null document makes the property
assignment `user.cn = ...` throw a TypeError; otherwise uid/cn are derived
from the filename and publicKeys defaults to the empty list (JS falsy
check). -/
def userTransform (parse : String → Except String (Option RawRecord))
    (filename : String) (contents : Option String) :
    Except String (Option RawUser) :=
  match parse (jsStringCoerce contents) with
  | .error e => .error e
  | .ok none => .error "TypeError: cannot set property cn of null"
  | .ok (some r) =>
    .ok (some
      { uid := fileUid filename
        cn := fileUid filename
        publicKeys := r.publicKeys.getD []
        primaryGroup := r.primaryGroup
        groups := r.groups })

/-- The groups/ transform (dataStore.js lines 185-194): a parse exception
propagates; a null document returns the null skip marker; a missing (or JS
falsy, i.e. zero) gidNumber logs and returns undefined, another skip marker;
otherwise cn is derived from the filename. -/
def groupTransform (parse : String → Except String (Option RawRecord))
    (filename : String) (contents : Option String) :
    Except String (Option RawGroup) :=
  match parse (jsStringCoerce contents) with
  | .error e => .error e
  | .ok none => .ok none
  | .ok (some r) =>
    match r.gidNumber with
    | none => .ok none
    | some 0 => .ok none
    | some (n+1) => .ok (some { cn := fileUid filename, gidNumber := n+1 })

/-- Load users/ (dataStore.js lines 171-178). -/
def loadUsers (parse : String → Except String (Option RawRecord)) (t : Tree) :
    Option (Except String (List (Option RawUser))) :=
  loadDir t.usersListing (userTransform parse)

/-- Load groups/ (dataStore.js lines 184-195). -/
def loadGroups (parse : String → Except String (Option RawRecord)) (t : Tree) :
    Option (Except String (List (Option RawGroup))) :=
  loadDir t.groupsListing (groupTransform parse)

/-- The layers/ first-phase transform (dataStore.js lines 204-207): every
entry becomes a layer stub named by the entry (regular-file contents are
ignored because the function only declares one parameter). -/
def layerStubTransform (dirname : String) (_contents : Option String) :
    Except String String :=
  .ok dirname

/-- The per-layer membership transform (dataStore.js lines 214-216): each
entry name, minus its extension, is a member uid. -/
def layerMemberTransform (linkname : String) (_contents : Option String) :
    Except String String :=
  .ok (fileUid linkname)

/-- The per-layer fan-out of `loadLayers` (dataStore.js lines 211-223): one
membership scan per stub, joined by the countdown `c`.  A scan that errors
settles the callback with that error; a scan whose directory listing hangs
(empty directory) leaves the countdown forever positive. -/
def loadLayersGo (t : Tree) :
    List String → List RawLayer → Bool → Option (Except String (List RawLayer))
  | [], acc, hang => if hang then none else some (.ok acc)
  | id :: rest, acc, hang =>
    match loadDir (t.layerListing id) layerMemberTransform with
    | none => loadLayersGo t rest acc true
    | some (.error e) => some (.error e)
    | some (.ok uids) => loadLayersGo t rest (acc ++ [{ id := id, users := uids }]) hang

/-- `loadLayers` (dataStore.js lines 201-225): scan layers/ for stubs, then
scan each layer directory for members.  With zero stubs the countdown starts
at zero and the callback is never invoked (in fact an empty layers/ listing
already hangs inside the first loadDir). -/
def loadLayers (t : Tree) : Option (Except String (List RawLayer)) :=
  match loadDir t.layersListing layerStubTransform with
  | none => none
  | some (.error e) => some (.error e)
  | some (.ok ids) =>
    match ids with
    | [] => none
    | _ => loadLayersGo t ids [] false

/-! ## Resolved store -/

/-- A group in a built store.  `members` is the reverse-membership list built
from user.groups resolution; a resolved member is the index of the user in
the same store generation (modelling JS object identity). -/
structure Group where
  cn : String
  gidNumber : Nat
  members : List Nat
  deriving DecidableEq

/-- The primaryGroup field after resolution: either the index of the group in
this generation, or the raw identifier left in place (with a warning logged)
when it did not resolve. -/
inductive PrimaryGroup
  | resolved (i : Nat)
  | raw (id : Option String)
  deriving DecidableEq

/-- A user in a built store; `groups` holds indices into the store groups
list. -/
structure User where
  uid : String
  cn : String
  publicKeys : List String
  primaryGroup : PrimaryGroup
  groups : List Nat
  deriving DecidableEq

/-- A layer in a built store; `users` holds indices into the store users
list. -/
structure Layer where
  id : String
  users : List Nat
  deriving DecidableEq

/-- The root aggregate built by one load pass. -/
structure Store where
  dir : String
  users : List User
  groups : List Group
  layers : List Layer
  deriving DecidableEq

/-- The raw collections handed to `buildDataStore` (skip markers already
compacted away). -/
structure RawStore where
  dir : String
  users : List RawUser
  groups : List RawGroup
  layers : List RawLayer

/-- Index lookup modelling a JS object map built by iterating
`coll[key(x)] = x`: the last element with the given key wins; the result is
its position. -/
def lastIdxAux (k : String) : List String → Option Nat
  | [] => none
  | s :: ss =>
    match lastIdxAux k ss with
    | some i => some (i + 1)
    | none => if s = k then some 0 else none

/-- underscore uniq: keep the first occurrence of each element, preserving
order. -/
def jsUniq (l : List String) : List String :=
  l.foldl (fun acc x => if acc.contains x then acc else acc ++ [x]) []

/-- `group.members.push(user)` (dataStore.js lines 251-253) on the group at
position `i`: append the user index `j` to that group. -/
def pushMember (j : Nat) : Nat → List Group → List Group
  | _, [] => []
  | 0, g :: gs => { g with members := g.members ++ [j] } :: gs
  | i + 1, g :: gs => g :: pushMember j i gs

/-- Resolution of one user declared group-id list (dataStore.js lines
246-256): map each id through the group index; a miss logs a warning and is
dropped by compact; a hit appends the user to that group members and keeps
the group reference. -/
def resolveGroupIds (gidx : String → Option Nat) (j : Nat) :
    List String → List Group → List Nat × List Group
  | [], gs => ([], gs)
  | gid :: rest, gs =>
    match gidx gid with
    | none => resolveGroupIds gidx j rest gs
    | some i =>
      let r := resolveGroupIds gidx j rest (pushMember j i gs)
      (i :: r.1, r.2)

/-- Resolution of a single user (dataStore.js lines 240-257): primaryGroup is
replaced by the indexed group when found, else the raw identifier stays (with
a warning); the declared group list is de-duplicated, resolved, and the
reverse members lists are updated. -/
def resolveUser (gidx : String → Option Nat) (j : Nat) (ru : RawUser)
    (gs : List Group) : User × List Group :=
  let pg : PrimaryGroup :=
    match ru.primaryGroup with
    | none => .raw none
    | some pgid =>
      match gidx pgid with
      | some i => .resolved i
      | none => .raw (some pgid)
  let r := resolveGroupIds gidx j (jsUniq (ru.groups.getD [])) gs
  ({ uid := ru.uid
     cn := ru.cn
     publicKeys := ru.publicKeys
     primaryGroup := pg
     groups := r.1 }, r.2)

/-- The store.users.forEach loop of `buildDataStore`, threading the mutated
groups list; `j` is the position of the next user. -/
def resolveUsersFrom (gidx : String → Option Nat) :
    Nat → List RawUser → List Group → List User × List Group
  | _, [], gs => ([], gs)
  | j, ru :: rus, gs =>
    let p := resolveUser gidx j ru gs
    let q := resolveUsersFrom gidx (j + 1) rus p.2
    (p.1 :: q.1, q.2)

/-- A raw group entering resolution: members starts absent (modelled empty,
lazily initialized by the source before the first push). -/
def rawGroupToGroup (rg : RawGroup) : Group :=
  { cn := rg.cn, gidNumber := rg.gidNumber, members := [] }

/-- `buildDataStore` (dataStore.js lines 230-266): index groups by cn and
users by uid (last write wins), resolve every user, then resolve every layer
member list through the user index, silently dropping misses (compact of the
map). -/
def buildDataStore (raw : RawStore) : Store :=
  let gs0 := raw.groups.map rawGroupToGroup
  let gidx := fun c => lastIdxAux c (gs0.map Group.cn)
  let uidx := fun c => lastIdxAux c (raw.users.map RawUser.uid)
  let r := resolveUsersFrom gidx 0 raw.users gs0
  { dir := raw.dir
    users := r.1
    groups := r.2
    layers := raw.layers.map (fun l => { id := l.id, users := l.users.filterMap uidx }) }

/-! ## load -/

/-- `load` (dataStore.js lines 268-282): the async.parallel join of the three
branch loads.  A branch error settles the final callback with that error even
while other branches are pending (errors are checked in task order for
determinism); only when all three deliver results is the store built, after
compacting the null/undefined skip markers (the only falsy values present). -/
def load (parse : String → Except String (Option RawRecord)) (t : Tree) :
    Option (Except String Store) :=
  match loadGroups parse t, loadUsers parse t, loadLayers t with
  | some (.error e), _, _ => some (.error e)
  | _, some (.error e), _ => some (.error e)
  | _, _, some (.error e) => some (.error e)
  | some (.ok gs), some (.ok us), some (.ok ls) =>
    some (.ok (buildDataStore
      { dir := t.dir
        users := us.filterMap id
        groups := gs.filterMap id
        layers := ls }))
  | _, _, _ => none

/-! ## Controller -/

/-- The controller state: whether a chokidar watch has been started, and the
module-global `store` slot (dataStore.js line 17), set only by a successful
load. -/
structure CtrlState where
  watching : Bool
  store : Option Store
  deriving DecidableEq

/-- Outcome of the guard at the top of `initialize`. -/
inductive InitCheck
  | usageError (msg : String)
  | proceed
  deriving DecidableEq

/-- The `initialize` entry (dataStore.js lines 291-298): if the global store
slot is set, the callback is invoked immediately with the usage error and
nothing changes; otherwise a watch is started. -/
def initStep (s : CtrlState) : InitCheck × CtrlState :=
  match s.store with
  | some _ => (.usageError "data store is already initialized", s)
  | none => (.proceed, { s with watching := true })

/-- One load pass updating the global store slot (dataStore.js lines 271-281,
driven by the change handler at lines 308-317): the slot is assigned only
when the pass delivers a built store; a failed (or never-completing) pass
leaves it untouched. -/
def reloadEvent (parse : String → Except String (Option RawRecord)) (t : Tree)
    (s : CtrlState) : CtrlState :=
  match load parse t with
  | some (.ok st) => { s with store := some st }
  | _ => s

/-! ## Query facade -/

/-- `findUser` (dataStore.js lines 25-29): underscore find over
`store.users`.  With the slot unset, reading `.users` of undefined throws a
TypeError. -/
def findUserJs (slot : Option Store) (uid : String) :
    Except String (Option User) :=
  match slot with
  | none => .error "TypeError: cannot read property users of undefined"
  | some st => .ok (st.users.find? (fun u => u.uid == uid))

/-- `publicKeys` (dataStore.js lines 38-44): null when the user is not found,
else the user key list. -/
def publicKeysJs (slot : Option Store) (uid : String) :
    Except String (Option (List String)) :=
  match findUserJs slot uid with
  | .error e => .error e
  | .ok none => .ok none
  | .ok (some u) => .ok (some u.publicKeys)

/-- JavaScript `toUpperCase()`, modelled on the character sequence. -/
def jsToUpper (s : String) : String :=
  String.mk (s.data.map Char.toUpper)

/-- The environment variable consulted for a layer password:
`format("LDAP_LAYER_%s_PASSWORD", layer.toUpperCase())`. -/
def envVarName (layer : String) : String :=
  "LDAP_LAYER_" ++ jsToUpper layer ++ "_PASSWORD"

/-- Outcome of `authenticate`. -/
inductive AuthResult
  | success (secret : String)
  | invalidCredentials (msg : String)
  deriving DecidableEq

/-- `authenticate` (dataStore.js lines 51-57): the stored password must be
truthy (present and non-empty) and strictly equal to the credential;
otherwise an InvalidCredentialsError naming the layer. -/
def authenticate (env : String → Option String) (layer credential : String) :
    AuthResult :=
  match env (envVarName layer) with
  | none => .invalidCredentials ("Invalid login for layer " ++ layer)
  | some password =>
    if password != "" && credential == password then .success password
    else .invalidCredentials ("Invalid login for layer " ++ layer)

/-- Whether a delivered load outcome is not an error (used to state that a
branch did not fail). -/
def isNotError : Option (Except String α) → Bool
  | some (.error _) => false
  | _ => true

end Teleport

namespace Teleport

/-! ## Proof-side abbreviations and concrete instances -/

/-- Append a batch of members to a group (proof-side abbreviation for the
effect of repeated pushes). -/
def addMembers (g : Group) (t : List Nat) : Group :=
  { g with members := g.members ++ t }

/-- A concrete parser: the content "BAD" is malformed (the parser throws),
everything else parses to an empty mapping. -/
def parseCex : String → Except String (Option RawRecord) :=
  fun c => if c = "BAD" then .error "YAMLException: bad" else .ok (some {})

/-- A concrete parser for the well-formed example tree. -/
def parseEx : String → Except String (Option RawRecord) :=
  fun c =>
    if c = "U" then
      .ok (some { publicKeys := some ["k1"], primaryGroup := some "dev",
                  groups := some ["dev", "dev", "qa"] })
    else if c = "G" then .ok (some { gidNumber := some 10 })
    else .error "bad"

/-- A well-formed example tree: one user, one group, one layer with one
member. -/
def treeEx : Tree where
  dir := "d"
  usersListing := .ok [("alice.yaml", .file "U")]
  groupsListing := .ok [("dev.yaml", .file "G")]
  layersListing := .ok [("prod", .dir)]
  layerListing := fun id =>
    if id = "prod" then .ok [("alice.yaml", .symlink)] else .error "ENOENT"

/-- The store a load over `treeEx` builds. -/
def stEx : Store where
  dir := "d"
  users := [{ uid := "alice", cn := "alice", publicKeys := ["k1"],
              primaryGroup := .resolved 0, groups := [0] }]
  groups := [{ cn := "dev", gidNumber := 10, members := [0] }]
  layers := [{ id := "prod", users := [0] }]

/-- The user of `stEx`. -/
def uEx : User where
  uid := "alice"
  cn := "alice"
  publicKeys := ["k1"]
  primaryGroup := .resolved 0
  groups := [0]

/-- The group of `stEx`. -/
def gEx : Group where
  cn := "dev"
  gidNumber := 10
  members := [0]

/-- A controller state with a watch running and `stEx` installed. -/
def sEx : CtrlState where
  watching := true
  store := some stEx

/-- A tree whose users/ directory holds a malformed user record and whose
other directories are loadable. -/
def treeC1 : Tree where
  dir := "d"
  usersListing := .ok [("bob.yaml", .file "BAD")]
  groupsListing := .ok [("g.yaml", .file "ok")]
  layersListing := .ok [("l", .dir)]
  layerListing := fun _ => .ok [("a.yaml", .symlink)]

/-- A tree whose groups/ directory holds a group record with malformed
content and whose other directories are loadable. -/
def treeC3 : Tree where
  dir := "d"
  usersListing := .ok [("u.yaml", .file "ok")]
  groupsListing := .ok [("g.yaml", .file "BAD")]
  layersListing := .ok [("l", .dir)]
  layerListing := fun _ => .ok [("a.yaml", .symlink)]

/-- A trivial transform that never throws. -/
def fnTriv : String → Option String → Except String Nat :=
  fun _ _ => .ok 0

/-- A transform that throws exactly on the entry named "bad.yaml". -/
def fnC2 : String → Option String → Except String Nat :=
  fun n _ => if n = "bad.yaml" then .error "boom" else .ok 0

/-- A listing with one good entry and one entry whose transform throws. -/
def filesC2 : List (String × FsEntry) :=
  [("ok.yaml", .file "x"), ("bad.yaml", .file "y")]

/-- A tree with an empty users/ listing and a failing groups/ listing. -/
def treeC8cex : Tree where
  dir := "d"
  usersListing := .ok []
  groupsListing := .error "boom"
  layersListing := .ok [("l", .dir)]
  layerListing := fun _ => .ok [("a.yaml", .symlink)]

/-- A tree with an empty users/ listing whose other directories load without
error. -/
def treeC8w : Tree where
  dir := "d"
  usersListing := .ok []
  groupsListing := .ok [("g.yaml", .file "ok")]
  layersListing := .ok [("l", .dir)]
  layerListing := fun _ => .ok [("a.yaml", .symlink)]

/-- An environment whose per-layer password for "prod" is set to the empty
string and which defines nothing else. -/
def envC10 : String → Option String :=
  fun v => if v = "LDAP_LAYER_PROD_PASSWORD" then some "" else none

end Teleport

namespace Teleport

/-! ## Record Loader lemmas -/

/-- If some entry settles the callback with an error, the delivered outcome
of the fan-out is an error. -/
theorem loadDirGo_err (fn : String → Option String → Except String β)
    (files : List (String × FsEntry)) :
    ∀ (acc : List β) (hang : Bool),
      (∃ en ∈ files, entryFails fn en = true) →
      ∃ e, loadDirGo fn files acc hang = some (.error e) := by
  induction files with
  | nil =>
    rintro acc hang ⟨en, hen, -⟩
    exact absurd hen (List.not_mem_nil en)
  | cons hd rest ih =>
    obtain ⟨name, ent⟩ := hd
    rintro acc hang ⟨en, hen, hf⟩
    rcases List.mem_cons.mp hen with rfl | hmem
    · cases ent with
      | statErr m => exact ⟨m, rfl⟩
      | readErr m => exact ⟨m, rfl⟩
      | file c =>
        cases hfn : fn name (some c) with
        | error e => exact ⟨e, by simp [loadDirGo, hfn]⟩
        | ok v => simp [entryFails, hfn] at hf
      | dir =>
        cases hfn : fn name none with
        | error e => exact ⟨e, by simp [loadDirGo, hfn]⟩
        | ok v => simp [entryFails, hfn] at hf
      | symlink =>
        cases hfn : fn name none with
        | error e => exact ⟨e, by simp [loadDirGo, hfn]⟩
        | ok v => simp [entryFails, hfn] at hf
      | other => simp [entryFails] at hf
    · cases ent with
      | statErr m => exact ⟨m, rfl⟩
      | readErr m => exact ⟨m, rfl⟩
      | file c =>
        cases hfn : fn name (some c) with
        | error e => exact ⟨e, by simp [loadDirGo, hfn]⟩
        | ok v =>
          obtain ⟨e, he⟩ := ih (acc ++ [v]) hang ⟨en, hmem, hf⟩
          exact ⟨e, by simp [loadDirGo, hfn, he]⟩
      | dir =>
        cases hfn : fn name none with
        | error e => exact ⟨e, by simp [loadDirGo, hfn]⟩
        | ok v =>
          obtain ⟨e, he⟩ := ih (acc ++ [v]) hang ⟨en, hmem, hf⟩
          exact ⟨e, by simp [loadDirGo, hfn, he]⟩
      | symlink =>
        cases hfn : fn name none with
        | error e => exact ⟨e, by simp [loadDirGo, hfn]⟩
        | ok v =>
          obtain ⟨e, he⟩ := ih (acc ++ [v]) hang ⟨en, hmem, hf⟩
          exact ⟨e, by simp [loadDirGo, hfn, he]⟩
      | other =>
        obtain ⟨e, he⟩ := ih acc true ⟨en, hmem, hf⟩
        exact ⟨e, by simp [loadDirGo, he]⟩

/-- A delivered success is complete: the hang flag was never set, no entry
failed, none was of an unhandled kind, and the result collects the transform
output of every entry. -/
theorem loadDirGo_ok (fn : String → Option String → Except String β)
    (files : List (String × FsEntry)) :
    ∀ (acc : List β) (hang : Bool) (res : List β),
      loadDirGo fn files acc hang = some (.ok res) →
      hang = false ∧
      (∀ en ∈ files, entryFails fn en = false ∧ en.2 ≠ FsEntry.other) ∧
      res = acc ++ files.filterMap (entryVal fn) ∧
      (files.filterMap (entryVal fn)).length = files.length := by
  induction files with
  | nil =>
    intro acc hang res h
    cases hang with
    | true => simp [loadDirGo] at h
    | false =>
      simp [loadDirGo] at h
      subst h
      simp
  | cons hd rest ih =>
    obtain ⟨name, ent⟩ := hd
    intro acc hang res h
    cases ent with
    | statErr m => simp [loadDirGo] at h
    | readErr m => simp [loadDirGo] at h
    | file c =>
      cases hfn : fn name (some c) with
      | error e => simp [loadDirGo, hfn] at h
      | ok v =>
        simp only [loadDirGo, hfn] at h
        obtain ⟨hh, hall, hres, hlen⟩ := ih (acc ++ [v]) hang res h
        refine ⟨hh, ?_, ?_, ?_⟩
        · intro en hen
          rcases List.mem_cons.mp hen with rfl | hmem
          · exact ⟨by simp [entryFails, hfn], by simp⟩
          · exact hall en hmem
        · simp [List.filterMap_cons, entryVal, hfn, hres, List.append_assoc, Except.toOption]
        · simp [List.filterMap_cons, entryVal, hfn, hlen, Except.toOption]
    | dir =>
      cases hfn : fn name none with
      | error e => simp [loadDirGo, hfn] at h
      | ok v =>
        simp only [loadDirGo, hfn] at h
        obtain ⟨hh, hall, hres, hlen⟩ := ih (acc ++ [v]) hang res h
        refine ⟨hh, ?_, ?_, ?_⟩
        · intro en hen
          rcases List.mem_cons.mp hen with rfl | hmem
          · exact ⟨by simp [entryFails, hfn], by simp⟩
          · exact hall en hmem
        · simp [List.filterMap_cons, entryVal, hfn, hres, List.append_assoc, Except.toOption]
        · simp [List.filterMap_cons, entryVal, hfn, hlen, Except.toOption]
    | symlink =>
      cases hfn : fn name none with
      | error e => simp [loadDirGo, hfn] at h
      | ok v =>
        simp only [loadDirGo, hfn] at h
        obtain ⟨hh, hall, hres, hlen⟩ := ih (acc ++ [v]) hang res h
        refine ⟨hh, ?_, ?_, ?_⟩
        · intro en hen
          rcases List.mem_cons.mp hen with rfl | hmem
          · exact ⟨by simp [entryFails, hfn], by simp⟩
          · exact hall en hmem
        · simp [List.filterMap_cons, entryVal, hfn, hres, List.append_assoc, Except.toOption]
        · simp [List.filterMap_cons, entryVal, hfn, hlen, Except.toOption]
    | other =>
      simp only [loadDirGo] at h
      exact absurd (ih acc true res h).1 (by simp)

/-- Once the hang flag is set and no later entry errors, the callback is
never invoked. -/
theorem loadDirGo_hangTrue (fn : String → Option String → Except String β)
    (files : List (String × FsEntry)) :
    ∀ acc : List β, (∀ en ∈ files, entryFails fn en = false) →
      loadDirGo fn files acc true = none := by
  induction files with
  | nil => intro acc _; simp [loadDirGo]
  | cons hd rest ih =>
    obtain ⟨name, ent⟩ := hd
    intro acc hall
    cases ent with
    | statErr m => exact absurd (hall _ (List.mem_cons_self _ _)) (by simp [entryFails])
    | readErr m => exact absurd (hall _ (List.mem_cons_self _ _)) (by simp [entryFails])
    | file c =>
      cases hfn : fn name (some c) with
      | error e =>
        exact absurd (hall _ (List.mem_cons_self _ _)) (by simp [entryFails, hfn])
      | ok v =>
        simp only [loadDirGo, hfn]
        exact ih (acc ++ [v]) (fun en hen => hall en (List.mem_cons_of_mem _ hen))
    | dir =>
      cases hfn : fn name none with
      | error e =>
        exact absurd (hall _ (List.mem_cons_self _ _)) (by simp [entryFails, hfn])
      | ok v =>
        simp only [loadDirGo, hfn]
        exact ih (acc ++ [v]) (fun en hen => hall en (List.mem_cons_of_mem _ hen))
    | symlink =>
      cases hfn : fn name none with
      | error e =>
        exact absurd (hall _ (List.mem_cons_self _ _)) (by simp [entryFails, hfn])
      | ok v =>
        simp only [loadDirGo, hfn]
        exact ih (acc ++ [v]) (fun en hen => hall en (List.mem_cons_of_mem _ hen))
    | other =>
      simp only [loadDirGo]
      exact ih acc (fun en hen => hall en (List.mem_cons_of_mem _ hen))

/-- An entry of unhandled kind, with no entry erroring, means the callback is
never invoked. -/
theorem loadDirGo_hangOther (fn : String → Option String → Except String β)
    (files : List (String × FsEntry)) :
    ∀ (acc : List β) (hang : Bool),
      (∀ en ∈ files, entryFails fn en = false) →
      (∃ en ∈ files, en.2 = FsEntry.other) →
      loadDirGo fn files acc hang = none := by
  induction files with
  | nil => rintro acc hang - ⟨en, hen, -⟩; exact absurd hen (List.not_mem_nil en)
  | cons hd rest ih =>
    obtain ⟨name, ent⟩ := hd
    rintro acc hang hall ⟨en, hen, hoth⟩
    rcases List.mem_cons.mp hen with rfl | hmem
    · simp only at hoth
      subst hoth
      simp only [loadDirGo]
      exact loadDirGo_hangTrue fn rest acc
        (fun en2 hen2 => hall en2 (List.mem_cons_of_mem _ hen2))
    · cases ent with
      | statErr m => exact absurd (hall _ (List.mem_cons_self _ _)) (by simp [entryFails])
      | readErr m => exact absurd (hall _ (List.mem_cons_self _ _)) (by simp [entryFails])
      | file c =>
        cases hfn : fn name (some c) with
        | error e =>
          exact absurd (hall _ (List.mem_cons_self _ _)) (by simp [entryFails, hfn])
        | ok v =>
          simp only [loadDirGo, hfn]
          exact ih (acc ++ [v]) hang
            (fun en2 hen2 => hall en2 (List.mem_cons_of_mem _ hen2)) ⟨en, hmem, hoth⟩
      | dir =>
        cases hfn : fn name none with
        | error e =>
          exact absurd (hall _ (List.mem_cons_self _ _)) (by simp [entryFails, hfn])
        | ok v =>
          simp only [loadDirGo, hfn]
          exact ih (acc ++ [v]) hang
            (fun en2 hen2 => hall en2 (List.mem_cons_of_mem _ hen2)) ⟨en, hmem, hoth⟩
      | symlink =>
        cases hfn : fn name none with
        | error e =>
          exact absurd (hall _ (List.mem_cons_self _ _)) (by simp [entryFails, hfn])
        | ok v =>
          simp only [loadDirGo, hfn]
          exact ih (acc ++ [v]) hang
            (fun en2 hen2 => hall en2 (List.mem_cons_of_mem _ hen2)) ⟨en, hmem, hoth⟩
      | other =>
        simp only [loadDirGo]
        exact loadDirGo_hangTrue fn rest acc
          (fun en2 hen2 => hall en2 (List.mem_cons_of_mem _ hen2))

end Teleport

namespace Teleport

/-! ## Reference Resolver lemmas -/

theorem addMembers_nil (g : Group) : addMembers g [] = g := by
  cases g
  simp [addMembers]

theorem addMembers_append (g : Group) (t1 t2 : List Nat) :
    addMembers (addMembers g t1) t2 = addMembers g (t1 ++ t2) := by
  cases g
  simp [addMembers]

/-- An index returned by the last-write-wins key map is a valid position. -/
theorem lastIdxAux_lt (k : String) :
    ∀ (l : List String) (i : Nat), lastIdxAux k l = some i → i < l.length := by
  intro l
  induction l with
  | nil => intro i h; simp [lastIdxAux] at h
  | cons s ss ih =>
    intro i h
    simp only [lastIdxAux] at h
    cases hrec : lastIdxAux k ss with
    | some j =>
      rw [hrec] at h
      obtain rfl : j + 1 = i := by simpa using h
      exact Nat.succ_lt_succ (ih j hrec)
    | none =>
      rw [hrec] at h
      by_cases hs : s = k
      · rw [if_pos hs] at h
        injection h with h2
        subst h2
        simp
      · rw [if_neg hs] at h
        simp at h

/-- The members push leaves length unchanged. -/
theorem pushMember_length (j i : Nat) (gs : List Group) :
    (pushMember j i gs).length = gs.length := by
  induction gs generalizing i with
  | nil => cases i <;> rfl
  | cons g gs ih =>
    cases i with
    | zero => rfl
    | succ i => simpa [pushMember] using ih i

/-- Pointwise description of the members push: position `i` gets `j`
appended, every other position is untouched. -/
theorem pushMember_getElem (j i : Nat) (gs : List Group) (k : Nat) :
    (pushMember j i gs)[k]? =
      if k = i then (gs[k]?).map (fun g => addMembers g [j]) else gs[k]? := by
  induction gs generalizing i k with
  | nil => cases i <;> simp [pushMember]
  | cons g gs ih =>
    cases i with
    | zero =>
      cases k with
      | zero => simp [pushMember, addMembers]
      | succ k => simp [pushMember]
    | succ i =>
      cases k with
      | zero => simp [pushMember]
      | succ k => simpa [pushMember] using ih i k

/-- Joint invariant of one user group-list resolution: the groups list keeps
its length, every group only gains members (appended at the tail), and every
index returned is a valid position whose group now lists the user `j`. -/
theorem resolveGroupIds_spec (gidx : String → Option Nat) (j : Nat)
    (l : List String) :
    ∀ gs : List Group, (∀ (g : String) (i : Nat), gidx g = some i → i < gs.length) →
      (resolveGroupIds gidx j l gs).2.length = gs.length ∧
      (∀ (k : Nat) (g : Group), gs[k]? = some g →
        ∃ t, (resolveGroupIds gidx j l gs).2[k]? = some (addMembers g t)) ∧
      (∀ i : Nat, i ∈ (resolveGroupIds gidx j l gs).1 →
        i < gs.length ∧
        ∃ g2, (resolveGroupIds gidx j l gs).2[i]? = some g2 ∧ j ∈ g2.members) := by
  induction l with
  | nil =>
    intro gs _
    refine ⟨rfl, ?_, ?_⟩
    · intro k g hk
      exact ⟨[], by rw [addMembers_nil]; simpa [resolveGroupIds] using hk⟩
    · intro i hi
      simp [resolveGroupIds] at hi
  | cons gid rest ih =>
    intro gs hvalid
    cases hg : gidx gid with
    | none =>
      have := ih gs hvalid
      simpa [resolveGroupIds, hg] using this
    | some i =>
      have hi : i < gs.length := hvalid gid i hg
      have hlen1 : (pushMember j i gs).length = gs.length := pushMember_length j i gs
      have hvalid1 : ∀ (g : String) (i2 : Nat), gidx g = some i2 →
          i2 < (pushMember j i gs).length := by
        intro g i2 h2
        rw [hlen1]
        exact hvalid g i2 h2
      obtain ⟨ihlen, ihpres, ihmem⟩ := ih (pushMember j i gs) hvalid1
      have hunfold1 : (resolveGroupIds gidx j (gid :: rest) gs).1 =
          i :: (resolveGroupIds gidx j rest (pushMember j i gs)).1 := by
        simp [resolveGroupIds, hg]
      have hunfold2 : (resolveGroupIds gidx j (gid :: rest) gs).2 =
          (resolveGroupIds gidx j rest (pushMember j i gs)).2 := by
        simp [resolveGroupIds, hg]
      refine ⟨by rw [hunfold2, ihlen, hlen1], ?_, ?_⟩
      · intro k g hk
        by_cases hki : k = i
        · have hk1 : (pushMember j i gs)[k]? = some (addMembers g [j]) := by
            rw [pushMember_getElem, if_pos hki, hk]
            rfl
          obtain ⟨t2, ht2⟩ := ihpres k _ hk1
          refine ⟨[j] ++ t2, ?_⟩
          rw [hunfold2, ht2, addMembers_append]
        · have hk1 : (pushMember j i gs)[k]? = some g := by
            rw [pushMember_getElem, if_neg hki, hk]
          obtain ⟨t2, ht2⟩ := ihpres k g hk1
          exact ⟨t2, by rw [hunfold2]; exact ht2⟩
      · intro i2 hi2
        rw [hunfold1] at hi2
        rcases List.mem_cons.mp hi2 with rfl | hmem
        · refine ⟨hi, ?_⟩
          have hg0 : gs[i2]? = some gs[i2] := List.getElem?_eq_getElem hi
          have hk1 : (pushMember j i2 gs)[i2]? = some (addMembers gs[i2] [j]) := by
            rw [pushMember_getElem, if_pos rfl, hg0]
            rfl
          obtain ⟨t2, ht2⟩ := ihpres i2 _ hk1
          refine ⟨_, by rw [hunfold2]; exact ht2, ?_⟩
          simp [addMembers, addMembers_append]
        · obtain ⟨hlt, g2, hg2, hj⟩ := ihmem i2 hmem
          exact ⟨by rw [← hlen1]; exact hlt, g2, by rw [hunfold2]; exact hg2, hj⟩

end Teleport

namespace Teleport

/-- The single-user resolution inherits the group-list invariant and only
produces valid references. -/
theorem resolveUser_spec (gidx : String → Option Nat) (j : Nat) (ru : RawUser)
    (gs : List Group)
    (hvalid : ∀ (g : String) (i : Nat), gidx g = some i → i < gs.length) :
    (resolveUser gidx j ru gs).2.length = gs.length ∧
    (∀ (k : Nat) (g : Group), gs[k]? = some g →
      ∃ t, (resolveUser gidx j ru gs).2[k]? = some (addMembers g t)) ∧
    (∀ i ∈ (resolveUser gidx j ru gs).1.groups,
      i < gs.length ∧
      ∃ g2, (resolveUser gidx j ru gs).2[i]? = some g2 ∧ j ∈ g2.members) ∧
    (∀ i : Nat, (resolveUser gidx j ru gs).1.primaryGroup = PrimaryGroup.resolved i →
      i < gs.length) := by
  obtain ⟨hlen, hpres, hmem⟩ :=
    resolveGroupIds_spec gidx j (jsUniq (ru.groups.getD [])) gs hvalid
  have h2 : (resolveUser gidx j ru gs).2 =
      (resolveGroupIds gidx j (jsUniq (ru.groups.getD [])) gs).2 := rfl
  have h1 : (resolveUser gidx j ru gs).1.groups =
      (resolveGroupIds gidx j (jsUniq (ru.groups.getD [])) gs).1 := rfl
  refine ⟨by rw [h2]; exact hlen, ?_, ?_, ?_⟩
  · intro k g hk
    obtain ⟨t, ht⟩ := hpres k g hk
    exact ⟨t, by rw [h2]; exact ht⟩
  · intro i hi
    rw [h1] at hi
    obtain ⟨hlt, g2, hg2, hj⟩ := hmem i hi
    exact ⟨hlt, g2, by rw [h2]; exact hg2, hj⟩
  · intro i hpg
    cases hpgv : ru.primaryGroup with
    | none =>
      have : (resolveUser gidx j ru gs).1.primaryGroup = PrimaryGroup.raw none := by
        simp [resolveUser, hpgv]
      rw [this] at hpg
      exact absurd hpg (by simp)
    | some pgid =>
      cases hgx : gidx pgid with
      | none =>
        have : (resolveUser gidx j ru gs).1.primaryGroup =
            PrimaryGroup.raw (some pgid) := by
          simp [resolveUser, hpgv, hgx]
        rw [this] at hpg
        exact absurd hpg (by simp)
      | some i2 =>
        have : (resolveUser gidx j ru gs).1.primaryGroup =
            PrimaryGroup.resolved i2 := by
          simp [resolveUser, hpgv, hgx]
        rw [this] at hpg
        obtain rfl : i2 = i := by simpa using hpg
        exact hvalid pgid i2 hgx

/-- Joint invariant of the whole users.forEach loop: lengths are preserved,
groups only gain members, and the user at output position `p` (absolute
index `j + p`) has all its references valid and recorded in the reverse
members lists. -/
theorem resolveUsersFrom_spec (gidx : String → Option Nat) (rus : List RawUser) :
    ∀ (j : Nat) (gs : List Group),
      (∀ (g : String) (i : Nat), gidx g = some i → i < gs.length) →
      (resolveUsersFrom gidx j rus gs).2.length = gs.length ∧
      (resolveUsersFrom gidx j rus gs).1.length = rus.length ∧
      (∀ (k : Nat) (g : Group), gs[k]? = some g →
        ∃ t, (resolveUsersFrom gidx j rus gs).2[k]? = some (addMembers g t)) ∧
      (∀ (p : Nat) (u : User), (resolveUsersFrom gidx j rus gs).1[p]? = some u →
        (∀ i ∈ u.groups, i < gs.length ∧
          ∃ g2, (resolveUsersFrom gidx j rus gs).2[i]? = some g2 ∧
            (j + p) ∈ g2.members) ∧
        (∀ i : Nat, u.primaryGroup = PrimaryGroup.resolved i → i < gs.length)) := by
  induction rus with
  | nil =>
    intro j gs hvalid
    refine ⟨rfl, rfl, ?_, ?_⟩
    · intro k g hk
      exact ⟨[], by rw [addMembers_nil]; simpa [resolveUsersFrom] using hk⟩
    · intro p u hp
      simp [resolveUsersFrom] at hp
  | cons ru rus ih =>
    intro j gs hvalid
    obtain ⟨l1, pres1, mem1, pg1⟩ := resolveUser_spec gidx j ru gs hvalid
    have hvalid2 : ∀ (g : String) (i : Nat), gidx g = some i →
        i < (resolveUser gidx j ru gs).2.length := by
      intro g i h
      rw [l1]
      exact hvalid g i h
    obtain ⟨l2, ul2, pres2, spec2⟩ := ih (j + 1) (resolveUser gidx j ru gs).2 hvalid2
    have hu1 : (resolveUsersFrom gidx j (ru :: rus) gs).1 =
        (resolveUser gidx j ru gs).1 ::
          (resolveUsersFrom gidx (j + 1) rus (resolveUser gidx j ru gs).2).1 := rfl
    have hu2 : (resolveUsersFrom gidx j (ru :: rus) gs).2 =
        (resolveUsersFrom gidx (j + 1) rus (resolveUser gidx j ru gs).2).2 := rfl
    refine ⟨by rw [hu2, l2, l1], by rw [hu1]; simp [ul2], ?_, ?_⟩
    · intro k g hk
      obtain ⟨t1, ht1⟩ := pres1 k g hk
      obtain ⟨t2, ht2⟩ := pres2 k _ ht1
      refine ⟨t1 ++ t2, ?_⟩
      rw [hu2, ht2, addMembers_append]
    · intro p u hp
      rw [hu1] at hp
      cases p with
      | zero =>
        obtain rfl : (resolveUser gidx j ru gs).1 = u := by simpa using hp
        constructor
        · intro i hiu
          obtain ⟨hlt, g2, hg2, hj⟩ := mem1 i hiu
          obtain ⟨t2, ht2⟩ := pres2 i g2 hg2
          refine ⟨hlt, addMembers g2 t2, by rw [hu2]; exact ht2, ?_⟩
          simp only [Nat.add_zero, addMembers, List.mem_append]
          exact Or.inl hj
        · exact pg1
      | succ p =>
        have hp2 : (resolveUsersFrom gidx (j + 1) rus
            (resolveUser gidx j ru gs).2).1[p]? = some u := by simpa using hp
        obtain ⟨hg, hpg⟩ := spec2 p u hp2
        constructor
        · intro i hiu
          obtain ⟨hlt, g2, hg2, hj⟩ := hg i hiu
          refine ⟨by rw [← l1]; exact hlt, g2, by rw [hu2]; exact hg2, ?_⟩
          have harith : j + 1 + p = j + (p + 1) := by omega
          rwa [harith] at hj
        · intro i hpgr
          rw [← l1]
          exact hpg i hpgr

end Teleport

namespace Teleport

/-- The invariants of a built store: the users list has one entry per raw
user, every resolved reference (primaryGroup, user group list, layer member
list) is a valid position in the same generation, and every group referenced
from a user's group list carries that user in its members list. -/
theorem buildDataStore_spec (raw : RawStore) :
    (buildDataStore raw).users.length = raw.users.length ∧
    (buildDataStore raw).groups.length = raw.groups.length ∧
    (∀ u ∈ (buildDataStore raw).users,
      (∀ i ∈ u.groups, i < (buildDataStore raw).groups.length) ∧
      (∀ i : Nat, u.primaryGroup = PrimaryGroup.resolved i →
        i < (buildDataStore raw).groups.length)) ∧
    (∀ l ∈ (buildDataStore raw).layers, ∀ m ∈ l.users,
      m < (buildDataStore raw).users.length) ∧
    (∀ (p : Nat) (u : User), (buildDataStore raw).users[p]? = some u →
      ∀ i ∈ u.groups,
        ∃ g, (buildDataStore raw).groups[i]? = some g ∧ p ∈ g.members) := by
  have hvalid : ∀ (g : String) (i : Nat),
      (fun c => lastIdxAux c ((raw.groups.map rawGroupToGroup).map Group.cn)) g = some i →
      i < (raw.groups.map rawGroupToGroup).length := by
    intro g i h
    have := lastIdxAux_lt g ((raw.groups.map rawGroupToGroup).map Group.cn) i h
    simpa using this
  obtain ⟨l2, ul2, pres2, spec2⟩ :=
    resolveUsersFrom_spec
      (fun c => lastIdxAux c ((raw.groups.map rawGroupToGroup).map Group.cn))
      raw.users 0 (raw.groups.map rawGroupToGroup) hvalid
  have husers : (buildDataStore raw).users =
      (resolveUsersFrom
        (fun c => lastIdxAux c ((raw.groups.map rawGroupToGroup).map Group.cn))
        0 raw.users (raw.groups.map rawGroupToGroup)).1 := rfl
  have hgroups : (buildDataStore raw).groups =
      (resolveUsersFrom
        (fun c => lastIdxAux c ((raw.groups.map rawGroupToGroup).map Group.cn))
        0 raw.users (raw.groups.map rawGroupToGroup)).2 := rfl
  have hlayers : (buildDataStore raw).layers =
      raw.layers.map (fun l =>
        { id := l.id
          users := l.users.filterMap
            (fun c => lastIdxAux c (raw.users.map RawUser.uid)) }) := rfl
  have hul : (buildDataStore raw).users.length = raw.users.length := by
    rw [husers, ul2]
  have hgl : (buildDataStore raw).groups.length = raw.groups.length := by
    rw [hgroups, l2]
    simp
  have hgl2 : (buildDataStore raw).groups.length =
      (raw.groups.map rawGroupToGroup).length := by
    rw [hgl]
    simp
  refine ⟨hul, hgl, ?_, ?_, ?_⟩
  · intro u hu
    obtain ⟨p, hplt, hpu⟩ := List.mem_iff_getElem.mp hu
    have hp : (buildDataStore raw).users[p]? = some u := by
      rw [List.getElem?_eq_getElem hplt, hpu]
    rw [husers] at hp
    obtain ⟨hg, hpg⟩ := spec2 p u hp
    constructor
    · intro i hi
      rw [hgl2]
      exact (hg i hi).1
    · intro i hi
      rw [hgl2]
      exact hpg i hi
  · intro l hl m hm
    rw [hlayers] at hl
    obtain ⟨rl, _, rfl⟩ := List.mem_map.mp hl
    simp only at hm
    obtain ⟨c, _, hc⟩ := List.mem_filterMap.mp hm
    have := lastIdxAux_lt c (raw.users.map RawUser.uid) m hc
    rw [hul]
    simpa using this
  · intro p u hp i hi
    rw [husers] at hp
    obtain ⟨hg, -⟩ := spec2 p u hp
    obtain ⟨-, g2, hg2, hj⟩ := hg i hi
    refine ⟨g2, by rw [hgroups]; exact hg2, ?_⟩
    simpa using hj

/-- Inversion of a successful load: all three branches delivered results and
the store is the resolver output over the compacted collections. -/
theorem load_ok_inv (parse : String → Except String (Option RawRecord))
    (t : Tree) (st : Store) (h : load parse t = some (.ok st)) :
    ∃ gs us ls, loadGroups parse t = some (.ok gs) ∧
      loadUsers parse t = some (.ok us) ∧
      loadLayers t = some (.ok ls) ∧
      st = buildDataStore
        { dir := t.dir
          users := us.filterMap id
          groups := gs.filterMap id
          layers := ls } := by
  rcases hg : loadGroups parse t with _ | (eg | gv) <;>
    rcases hu : loadUsers parse t with _ | (eu | uv) <;>
      rcases hl : loadLayers t with _ | (el | lv) <;>
        simp only [load, hg, hu, hl] at h <;>
          simp at h
  exact ⟨gv, uv, lv, rfl, rfl, rfl, h.symm⟩

end Teleport

namespace Teleport

/-! ## Claim theorems -/

/-- Claim C1 (confirmed): if a load pass fails, the previously installed
store remains entirely unchanged and continues to answer queries — the
shared current-store slot is assigned only in the success branch of the load,
so a failed load performs no mutation of the visible store. -/
theorem c1_failed_load_leaves_store_unchanged
    (parse : String → Except String (Option RawRecord)) (t : Tree)
    (s : CtrlState) (e : String) (h : load parse t = some (.error e)) :
    reloadEvent parse t s = s ∧
    ∀ uid : String,
      publicKeysJs (reloadEvent parse t s).store uid = publicKeysJs s.store uid := by
  have hstate : reloadEvent parse t s = s := by
    simp [reloadEvent, h]
  exact ⟨hstate, fun uid => by rw [hstate]⟩

/-- Witness for C1: a reload over a tree with a malformed user record leaves
the installed store and its query answers unchanged. -/
theorem c1_witness :
    reloadEvent parseCex treeC1 sEx = sEx ∧
    publicKeysJs (reloadEvent parseCex treeC1 sEx).store "alice" =
      publicKeysJs sEx.store "alice" := by
  have h := c1_failed_load_leaves_store_unchanged parseCex treeC1 sEx
    "YAMLException: bad" (by decide)
  exact ⟨h.1, h.2 "alice"⟩

/-- The character-level split finds no separator in a dot-free string. -/
theorem splitDotChars_no_dot (cs : List Char) :
    '.' ∉ cs → splitDotChars cs = [cs] := by
  induction cs with
  | nil => intro _; rfl
  | cons c cs ih =>
    intro h
    have hc : ¬ c = '.' := fun he => h (he ▸ List.mem_cons_self c cs)
    have hrest : '.' ∉ cs := fun hm => h (List.mem_cons_of_mem c hm)
    simp [splitDotChars, if_neg hc, ih hrest]

/-- Claim C4 counterexample: a filename containing no dot is mapped to the
empty string, not to the original token. -/
theorem c4_cex : fileUid "alice" = "" ∧ fileUid "alice" ≠ "alice" := by decide

/-- Claim C4 (amended): the transform strips exactly the final dot-segment
("alice.yaml" yields "alice", "alice.smith.yaml" yields "alice.smith"), but
a filename containing no dot yields the empty string (all zero of its
leading tokens are joined), not the original token. -/
theorem c4_amended :
    fileUid "alice.yaml" = "alice" ∧
    fileUid "alice.smith.yaml" = "alice.smith" ∧
    ∀ s : String, '.' ∉ s.data → fileUid s = "" := by
  refine ⟨by decide, by decide, ?_⟩
  intro s h
  have hsplit : jsSplitDot s = [s] := by
    have hs2 : String.mk s.data = s := by cases s; rfl
    simp [jsSplitDot, splitDotChars_no_dot s.data h, hs2]
  simp [fileUid, hsplit, String.intercalate]

/-- Witness for C4 (amended): the dot-free filename "alice" yields "". -/
theorem c4_witness : fileUid "alice" = "" :=
  c4_amended.2.2 "alice" (by decide)

/-- Claim C7 counterexample: with a watch already started by a previous
initialize whose initial load has not completed (store slot still unset), a
second initialize is not rejected — it proceeds and starts another watch. -/
theorem c7_cex :
    (initStep { watching := true, store := none }).1 = InitCheck.proceed ∧
    (initStep { watching := true, store := none }).1 ≠
      InitCheck.usageError "data store is already initialized" := by decide

/-- Claim C7 (amended): initialize fails immediately with the usage error
and performs no state change exactly when a previous load has already
installed a store (the guard reads the store slot, not the watch state); as
long as the slot is unset — even with a watch already running — a second
initialize proceeds. -/
theorem c7_amended :
    (∀ (s : CtrlState) (st : Store), s.store = some st →
      initStep s = (InitCheck.usageError "data store is already initialized", s)) ∧
    (∀ s : CtrlState, s.store = none → (initStep s).1 = InitCheck.proceed) := by
  constructor
  · intro s st h
    simp [initStep, h]
  · intro s h
    simp [initStep, h]

/-- Witness for C7 (amended): with a store installed, initialize reports the
usage error and changes nothing. -/
theorem c7_witness :
    initStep sEx = (InitCheck.usageError "data store is already initialized", sEx) :=
  c7_amended.1 sEx stEx rfl

/-- Claim C9 (confirmed): before a first successful load has installed a
store, publicKeys throws (the lookup dereferences the unset store slot) for
every uid, rather than returning the documented null not-found result. -/
theorem c9_query_before_first_load_throws (uid : String) :
    publicKeysJs none uid =
      .error "TypeError: cannot read property users of undefined" ∧
    ∀ v : Option (List String), publicKeysJs none uid ≠ .ok v := by
  refine ⟨rfl, ?_⟩
  intro v h
  simp [publicKeysJs, findUserJs] at h

/-- Witness for C9: the concrete uid "alice" queried against the unset
store slot yields the TypeError. -/
theorem c9_witness :
    publicKeysJs none "alice" =
      .error "TypeError: cannot read property users of undefined" :=
  (c9_query_before_first_load_throws "alice").1

/-- Claim C10 (confirmed): with the per-layer password variable unset or
empty, authenticate fails with invalid credentials for every credential
(including the empty credential); success requires a non-empty stored
password equal to the credential. -/
theorem c10_layer_password_guard (env : String → Option String)
    (layer cred : String) :
    ((env (envVarName layer) = none ∨ env (envVarName layer) = some "") →
      authenticate env layer cred =
        .invalidCredentials ("Invalid login for layer " ++ layer)) ∧
    (∀ p : String, authenticate env layer cred = .success p →
      env (envVarName layer) = some p ∧ p ≠ "" ∧ cred = p) := by
  constructor
  · rintro (h | h) <;> simp [authenticate, h]
  · intro p h
    cases he : env (envVarName layer) with
    | none => simp [authenticate, he] at h
    | some pw =>
      simp only [authenticate, he] at h
      by_cases hc : (pw != "" && cred == pw) = true
      · rw [if_pos hc] at h
        have hp : p = pw := by simpa using h.symm
        subst hp
        simp only [Bool.and_eq_true, bne_iff_ne, ne_eq, beq_iff_eq] at hc
        exact ⟨rfl, hc.1, hc.2⟩
      · rw [if_neg hc] at h
        simp at h

/-- Witness for C10: the password for "prod" set to the empty string rejects
even the empty credential. -/
theorem c10_witness :
    authenticate envC10 "prod" "" =
      .invalidCredentials ("Invalid login for layer " ++ "prod") :=
  (c10_layer_password_guard envC10 "prod" "").1 (Or.inr (by decide))

end Teleport

namespace Teleport

/-- Claim C2 counterexample: a single entry whose kind is none of regular
file, directory, or symbolic link does not make the operation fail with an
error — the completion callback is never invoked at all. -/
theorem c2_cex : loadDir (.ok [("fifo", FsEntry.other)]) fnTriv = none := by
  decide

/-- Claim C2 (amended): a directory-listing failure or a throwing transform
settles the callback with that error, and no partial collection is ever
delivered (a delivered success contains the transform output of every
entry); but an entry of unhandled kind produces no error — it makes the load
never complete, unless some other entry independently fails. -/
theorem c2_amended {β : Type} :
    (∀ (fn : String → Option String → Except String β) (e : String),
      loadDir (.error e) fn = some (.error e)) ∧
    (∀ (fn : String → Option String → Except String β)
        (files : List (String × FsEntry)),
      (∃ en ∈ files, entryFails fn en = true) →
      ∃ e, loadDir (.ok files) fn = some (.error e)) ∧
    (∀ (fn : String → Option String → Except String β)
        (files : List (String × FsEntry)) (res : List β),
      loadDir (.ok files) fn = some (.ok res) →
      (∀ en ∈ files, entryFails fn en = false ∧ en.2 ≠ FsEntry.other) ∧
      res = files.filterMap (entryVal fn) ∧
      res.length = files.length) ∧
    (∀ (fn : String → Option String → Except String β)
        (files : List (String × FsEntry)),
      (∀ en ∈ files, entryFails fn en = false) →
      (∃ en ∈ files, en.2 = FsEntry.other) →
      loadDir (.ok files) fn = none) := by
  refine ⟨fun fn e => rfl, ?_, ?_, ?_⟩
  · intro fn files h
    cases files with
    | nil =>
      obtain ⟨en, hen, -⟩ := h
      exact absurd hen (List.not_mem_nil en)
    | cons f fs => exact loadDirGo_err fn (f :: fs) [] false h
  · intro fn files res h
    cases files with
    | nil => simp [loadDir] at h
    | cons f fs =>
      obtain ⟨-, hall, hres, hlen⟩ := loadDirGo_ok fn (f :: fs) [] false res h
      refine ⟨hall, by simpa using hres, ?_⟩
      rw [hres]
      simpa using hlen
  · intro fn files hall hoth
    cases files with
    | nil =>
      obtain ⟨en, hen, -⟩ := hoth
      exact absurd hen (List.not_mem_nil en)
    | cons f fs => exact loadDirGo_hangOther fn (f :: fs) [] false hall hoth

/-- Witness for C2 (amended): a listing with a throwing transform delivers a
non-success outcome. -/
theorem c2_witness : isNotError (loadDir (.ok filesC2) fnC2) = false := by
  obtain ⟨e, he⟩ := (c2_amended (β := Nat)).2.1 fnC2 filesC2
    ⟨("bad.yaml", FsEntry.file "y"), by decide, by decide⟩
  rw [he]
  rfl

/-- Claim C3 counterexample: a group file with malformed content (the parser
throws) fails the groups load — and with it the whole load — instead of
being skipped. -/
theorem c3_cex :
    loadGroups parseCex treeC3 = some (.error "YAMLException: bad") ∧
    load parseCex treeC3 = some (.error "YAMLException: bad") := by decide

/-- Claim C3 (amended): the skip-with-log behavior of the groups transform
covers a null parse result (skipped, without a log) and a missing or falsy
gidNumber (skipped with a log); a content parse failure — the parser
throwing — propagates out of the transform and is fatal to the load attempt
for groups exactly as it is for users. -/
theorem c3_amended :
    (∀ (parse : String → Except String (Option RawRecord)) (n c e : String),
      parse c = .error e → groupTransform parse n (some c) = .error e) ∧
    (∀ (parse : String → Except String (Option RawRecord)) (n c e : String),
      parse c = .error e → userTransform parse n (some c) = .error e) ∧
    (∀ (parse : String → Except String (Option RawRecord)) (n c : String),
      parse c = .ok none → groupTransform parse n (some c) = .ok none) ∧
    (∀ (parse : String → Except String (Option RawRecord)) (n c : String)
        (r : RawRecord),
      parse c = .ok (some r) → (r.gidNumber = none ∨ r.gidNumber = some 0) →
      groupTransform parse n (some c) = .ok none) ∧
    (∀ (parse : String → Except String (Option RawRecord)) (n c e : String),
      parse c = .error e →
      entryFails (groupTransform parse) (n, .file c) = true) ∧
    (∀ (parse : String → Except String (Option RawRecord)) (t : Tree)
        (files : List (String × FsEntry)),
      t.groupsListing = .ok files →
      (∃ en ∈ files, entryFails (groupTransform parse) en = true) →
      ∃ e, loadGroups parse t = some (.error e)) := by
  refine ⟨?_, ?_, ?_, ?_, ?_, ?_⟩
  · intro parse n c e h
    simp [groupTransform, jsStringCoerce, h]
  · intro parse n c e h
    simp [userTransform, jsStringCoerce, h]
  · intro parse n c h
    simp [groupTransform, jsStringCoerce, h]
  · intro parse n c r h hg
    rcases hg with hg | hg <;> simp [groupTransform, jsStringCoerce, h, hg]
  · intro parse n c e h
    simp [entryFails, groupTransform, jsStringCoerce, h]
  · intro parse t files hlist hex
    unfold loadGroups
    rw [hlist]
    cases files with
    | nil =>
      obtain ⟨en, hen, -⟩ := hex
      exact absurd hen (List.not_mem_nil en)
    | cons f fs => exact loadDirGo_err (groupTransform parse) (f :: fs) [] false hex

/-- Witness for C3 (amended): the concrete malformed content "BAD" makes the
groups transform propagate the parser error. -/
theorem c3_witness :
    groupTransform parseCex "g.yaml" (some "BAD") =
      .error "YAMLException: bad" :=
  c3_amended.1 parseCex "g.yaml" "BAD" "YAMLException: bad" (by decide)

/-- Claim C5 (confirmed): in every store produced by a successful load,
every resolved reference — a resolved primaryGroup, every group in a user's
group list, every user in a layer's user list — is a member (a valid
position) of that same store's collections. -/
theorem c5_references_same_generation
    (parse : String → Except String (Option RawRecord)) (t : Tree)
    (st : Store) (h : load parse t = some (.ok st)) :
    (∀ u ∈ st.users,
      (∀ i ∈ u.groups, i < st.groups.length) ∧
      (∀ i : Nat, u.primaryGroup = PrimaryGroup.resolved i →
        i < st.groups.length)) ∧
    (∀ l ∈ st.layers, ∀ m ∈ l.users, m < st.users.length) := by
  obtain ⟨gs, us, ls, -, -, -, rfl⟩ := load_ok_inv parse t st h
  obtain ⟨-, -, husers, hlayers, -⟩ := buildDataStore_spec _
  exact ⟨husers, hlayers⟩

/-- Witness for C5: the example store has its single references in bounds. -/
theorem c5_witness : (0 : Nat) < stEx.groups.length ∧ (0 : Nat) < stEx.users.length := by
  have h := c5_references_same_generation parseEx treeEx stEx (by decide)
  exact ⟨(h.1 uEx (by decide)).1 0 (by decide),
         h.2 { id := "prod", users := [0] } (by decide) 0 (by decide)⟩

/-- Claim C6 (confirmed): in every store produced by a successful load,
every group reachable from a user's group list carries that user in its
members list. -/
theorem c6_members_bidirectional
    (parse : String → Except String (Option RawRecord)) (t : Tree)
    (st : Store) (h : load parse t = some (.ok st)) (p : Nat) (u : User)
    (hu : st.users[p]? = some u) (i : Nat) (hi : i ∈ u.groups) :
    ∃ g, st.groups[i]? = some g ∧ p ∈ g.members := by
  obtain ⟨gs, us, ls, -, -, -, rfl⟩ := load_ok_inv parse t st h
  obtain ⟨-, -, -, -, hmem⟩ := buildDataStore_spec _
  exact hmem p u hu i hi

/-- Witness for C6: the example user is listed in the members of its
resolved group. -/
theorem c6_witness : (0 : Nat) ∈ gEx.members := by
  obtain ⟨g, hg, hm⟩ := c6_members_bidirectional parseEx treeEx stEx
    (by decide) 0 uEx (by decide) 0 (by decide)
  have he : stEx.groups[0]? = some gEx := by decide
  have hgg : g = gEx := (Option.some.inj (he.symm.trans hg)).symm
  rw [hgg] at hm
  exact hm

/-- With every branch free of errors, a branch that never completes makes
the async.parallel join never settle the load callback. -/
theorem load_none_of (parse : String → Except String (Option RawRecord))
    (t : Tree) (h1 : isNotError (loadGroups parse t) = true)
    (h2 : isNotError (loadUsers parse t) = true)
    (h3 : isNotError (loadLayers t) = true)
    (h4 : loadGroups parse t = none ∨ loadUsers parse t = none ∨
      loadLayers t = none) :
    load parse t = none := by
  rcases hg : loadGroups parse t with _ | (eg | gv) <;>
    rcases hu : loadUsers parse t with _ | (eu | uv) <;>
      rcases hl : loadLayers t with _ | (el | lv) <;>
        simp_all [load, isNotError]

/-- Claim C8 counterexample: a tree with an empty users/ directory can still
complete — here the groups listing fails, and the async.parallel join
settles the load callback with that error. -/
theorem c8_cex :
    load parseCex treeC8cex = some (.error "boom") ∧
    load parseCex treeC8cex ≠ none := by decide

/-- Claim C8 (amended): an empty directory listing makes the Record Loader
never invoke its completion callback; consequently a load over a tree whose
users/, groups/, or layers/ listing is empty (a layers/ directory with zero
entries included) never completes, provided no branch fails — if some branch
fails, the load completes with that branch's error instead. -/
theorem c8_amended :
    (∀ {β : Type} (fn : String → Option String → Except String β),
      loadDir (.ok []) fn = none) ∧
    (∀ (parse : String → Except String (Option RawRecord)) (t : Tree),
      isNotError (loadGroups parse t) = true →
      isNotError (loadUsers parse t) = true →
      isNotError (loadLayers t) = true →
      (t.usersListing = .ok [] ∨ t.groupsListing = .ok [] ∨
        t.layersListing = .ok []) →
      load parse t = none) := by
  constructor
  · intro β fn
    rfl
  · intro parse t hG hU hL hdisj
    apply load_none_of parse t hG hU hL
    rcases hdisj with hd | hd | hd
    · refine Or.inr (Or.inl ?_)
      unfold loadUsers
      rw [hd]
      rfl
    · refine Or.inl ?_
      unfold loadGroups
      rw [hd]
      rfl
    · refine Or.inr (Or.inr ?_)
      unfold loadLayers
      rw [hd]
      rfl

/-- Witness for C8 (amended): a tree with an empty users/ listing and
error-free other branches never completes. -/
theorem c8_witness : load parseCex treeC8w = none :=
  c8_amended.2 parseCex treeC8w (by decide) (by decide) (by decide)
    (Or.inl rfl)

end Teleport
